import Mathlib

/-!
Verification of the suffix-array peptide search engine
(`suffixarray`, `tsv-utils`, suffix-tree LCA path) against its
natural-language specification.

The Rust sources are shallowly embedded:
* byte strings become `List Nat` (each element a byte value),
* `i64` values become `Int` with explicit reduction modulo `2^64`,
* fallible code (`Result`, `panic!`) becomes `Except String`/`Option`,
* iterator pipelines become structural recursion over lists.
-/

/-! ### Index codec (`suffixarray/src/binary.rs`) -/

/-- Chunk size used by the binary codec: 1 GiB, from `const ONE_GIB: usize = 2usize.pow(30)`. -/
def ONE_GIB : Nat := 2 ^ 30

/-- Embedding of `i64::to_le_bytes`: the eight little-endian base-256 digits of
the value reduced modulo `2^64` (two's complement representation). -/
def i64_to_le_bytes (x : Int) : List Nat :=
  let u := (x % (2 ^ 64 : Int)).toNat
  [u % 256, u / 256 % 256, u / 256 ^ 2 % 256, u / 256 ^ 3 % 256,
   u / 256 ^ 4 % 256, u / 256 ^ 5 % 256, u / 256 ^ 6 % 256, u / 256 ^ 7 % 256]

/-- Embedding of `i64::from_le_bytes` on an 8-byte slice: recompose the
little-endian value and reinterpret as a signed two's-complement integer.
A list that does not have exactly 8 elements maps to `0`; the caller
(`deserialize_sa`) only ever passes exact 8-byte slices. -/
def i64_from_le_bytes (bs : List Nat) : Int :=
  match bs with
  | [b0, b1, b2, b3, b4, b5, b6, b7] =>
    let u : Nat := b0 + 256 * b1 + 256 ^ 2 * b2 + 256 ^ 3 * b3 + 256 ^ 4 * b4
      + 256 ^ 5 * b5 + 256 ^ 6 * b6 + 256 ^ 7 * b7
    if u < 2 ^ 63 then (u : Int) else (u : Int) - 2 ^ 64
  | _ => 0

/-- Embedding of `impl Serializable for [i64]`: each entry contributes its
8 little-endian bytes, back-to-back. -/
def serialize : List Int → List Nat
  | [] => []
  | x :: xs => i64_to_le_bytes x ++ serialize xs

/-- The value-decoding loop of `deserialize_sa`
(`for start in (0..data.len()).step_by(8)`), consuming 8 bytes per entry. -/
def bytes_to_i64s : List Nat → List Int
  | b0 :: b1 :: b2 :: b3 :: b4 :: b5 :: b6 :: b7 :: rest =>
    i64_from_le_bytes [b0, b1, b2, b3, b4, b5, b6, b7] :: bytes_to_i64s rest
  | _ => []

/-- Embedding of `deserialize_sa`: `panic!` when the byte count is not a
multiple of 8 is modelled as `Except.error` with the panic message. -/
def deserialize_sa (data : List Nat) : Except String (List Int) :=
  if data.length % 8 ≠ 0 then
    .error "Serialized data is not a multiple of 8 bytes long!"
  else
    .ok (bytes_to_i64s data)

/-- The chunked read loop of `read_sa_file`: take up to 1 GiB
(`file.take(ONE_GIB as u64).read_to_end`), stop at a zero-byte read,
deserialize each chunk and append. -/
def read_sa_chunks (data : List Nat) : Except String (List Int) :=
  if h : data = [] then
    .ok []
  else
    match deserialize_sa (data.take ONE_GIB) with
    | .error e => .error e
    | .ok xs =>
      match read_sa_chunks (data.drop ONE_GIB) with
      | .error e => .error e
      | .ok ys => .ok (xs ++ ys)
termination_by data.length
decreasing_by
  rw [List.length_drop]
  exact Nat.sub_lt (List.length_pos.mpr h) (by norm_num [ONE_GIB])

/-- Embedding of `read_sa_file`: the first byte of the file is the sample
rate (`read_exact` on a 1-byte buffer, an empty file is an error), the rest
is read in 1 GiB chunks. -/
def read_sa_file (data : List Nat) : Except String (Nat × List Int) :=
  match data with
  | [] => .error "Could not read the sample rate from the binary file"
  | k :: rest =>
    match read_sa_chunks rest with
    | .error e => .error e
    | .ok sa => .ok (k, sa)

/-- The chunked write loop of `write_binary`
(`for start_index in (0..sa_len).step_by(ONE_GIB/8)`), serializing
`ONE_GIB/8` suffix-array entries at a time. -/
def write_sa_chunks (xs : List Int) : List Nat :=
  if h : xs = [] then
    []
  else
    serialize (xs.take (ONE_GIB / 8)) ++ write_sa_chunks (xs.drop (ONE_GIB / 8))
termination_by xs.length
decreasing_by
  rw [List.length_drop]
  exact Nat.sub_lt (List.length_pos.mpr h) (by norm_num [ONE_GIB])

/-- Embedding of `write_binary`, restricted to the `<name>_sa.bin` stream it
produces: the sample-rate byte at offset 0 followed by the chunked
serialization of the suffix array. (The sibling `_text.bin` stream carries no
suffix-array data and is not modelled.) -/
def write_binary (sample_rate : Nat) (suffix_array : List Int) : List Nat :=
  sample_rate :: write_sa_chunks suffix_array

/-! ### Codec lemmas -/

theorem i64_to_le_bytes_length (x : Int) : (i64_to_le_bytes x).length = 8 := rfl

theorem i64_round_trip (x : Int) (h1 : -(2 ^ 63) ≤ x) (h2 : x < 2 ^ 63) :
    i64_from_le_bytes (i64_to_le_bytes x) = x := by
  have hm : (0 : Int) < 2 ^ 64 := by norm_num
  have h0 : (0 : Int) ≤ x % 2 ^ 64 := Int.emod_nonneg x (by norm_num)
  have hlt : x % 2 ^ 64 < 2 ^ 64 := Int.emod_lt_of_pos x hm
  set u : Nat := (x % (2 ^ 64 : Int)).toNat with hu
  have hcast : (u : Int) = x % 2 ^ 64 := Int.toNat_of_nonneg h0
  have hulit : (u : Int) < 2 ^ 64 := by rw [hcast]; exact hlt
  have huval : u < 2 ^ 64 := by exact_mod_cast hulit
  show i64_from_le_bytes [u % 256, u / 256 % 256, u / 256 ^ 2 % 256, u / 256 ^ 3 % 256,
      u / 256 ^ 4 % 256, u / 256 ^ 5 % 256, u / 256 ^ 6 % 256, u / 256 ^ 7 % 256] = x
  show (if (u % 256 + 256 * (u / 256 % 256) + 256 ^ 2 * (u / 256 ^ 2 % 256)
      + 256 ^ 3 * (u / 256 ^ 3 % 256) + 256 ^ 4 * (u / 256 ^ 4 % 256)
      + 256 ^ 5 * (u / 256 ^ 5 % 256) + 256 ^ 6 * (u / 256 ^ 6 % 256)
      + 256 ^ 7 * (u / 256 ^ 7 % 256) : Nat) < 2 ^ 63 then _ else _) = x
  have hrecomp : u % 256 + 256 * (u / 256 % 256) + 256 ^ 2 * (u / 256 ^ 2 % 256)
      + 256 ^ 3 * (u / 256 ^ 3 % 256) + 256 ^ 4 * (u / 256 ^ 4 % 256)
      + 256 ^ 5 * (u / 256 ^ 5 % 256) + 256 ^ 6 * (u / 256 ^ 6 % 256)
      + 256 ^ 7 * (u / 256 ^ 7 % 256) = u := by
    norm_num only
    omega
  rw [hrecomp]
  have hxmod : x % 2 ^ 64 = if 0 ≤ x then x else x + 2 ^ 64 := by
    split
    · exact Int.emod_eq_of_lt (by assumption) (by norm_num at h2 ⊢; omega)
    · norm_num only at h1 hlt h0 ⊢
      omega
  split
  · rename_i hsmall
    have : (u : Int) < 2 ^ 63 := by exact_mod_cast hsmall
    rw [hcast] at this ⊢
    norm_num only at this h1 h2 hxmod ⊢
    omega
  · rename_i hbig
    have : ¬ ((u : Int) < 2 ^ 63) := by
      intro hc
      exact hbig (by exact_mod_cast hc)
    rw [hcast] at this ⊢
    norm_num only at this h1 h2 hxmod ⊢
    omega

theorem serialize_append (a b : List Int) :
    serialize (a ++ b) = serialize a ++ serialize b := by
  induction a with
  | nil => rfl
  | cons x xs ih => simp [serialize, ih]

theorem serialize_length (xs : List Int) : (serialize xs).length = 8 * xs.length := by
  induction xs with
  | nil => rfl
  | cons x xs ih => simp [serialize, ih, i64_to_le_bytes_length]; ring

theorem bytes_to_i64s_serialize (xs : List Int)
    (h : ∀ x ∈ xs, -(2 ^ 63) ≤ x ∧ x < 2 ^ 63) :
    bytes_to_i64s (serialize xs) = xs := by
  induction xs with
  | nil => rfl
  | cons x xs ih =>
    have hx := h x (by simp)
    have hxs : ∀ y ∈ xs, -(2 ^ 63) ≤ y ∧ y < 2 ^ 63 := fun y hy => h y (by simp [hy])
    show bytes_to_i64s (i64_to_le_bytes x ++ serialize xs) = x :: xs
    have hstep : bytes_to_i64s (i64_to_le_bytes x ++ serialize xs)
        = i64_from_le_bytes (i64_to_le_bytes x) :: bytes_to_i64s (serialize xs) := rfl
    rw [hstep, ih hxs, i64_round_trip x hx.1 hx.2]

theorem bytes_to_i64s_append : ∀ (a b : List Nat), a.length % 8 = 0 →
    bytes_to_i64s (a ++ b) = bytes_to_i64s a ++ bytes_to_i64s b
  | [], b, _ => by simp [bytes_to_i64s]
  | [b0], b, h => by simp at h
  | [b0, b1], b, h => by simp at h
  | [b0, b1, b2], b, h => by simp at h
  | [b0, b1, b2, b3], b, h => by simp at h
  | [b0, b1, b2, b3, b4], b, h => by simp at h
  | [b0, b1, b2, b3, b4, b5], b, h => by simp at h
  | [b0, b1, b2, b3, b4, b5, b6], b, h => by simp at h
  | b0 :: b1 :: b2 :: b3 :: b4 :: b5 :: b6 :: b7 :: rest, b, h => by
    have h8 : rest.length % 8 = 0 := by
      simp only [List.length_cons] at h
      omega
    show i64_from_le_bytes [b0, b1, b2, b3, b4, b5, b6, b7] :: bytes_to_i64s (rest ++ b)
        = i64_from_le_bytes [b0, b1, b2, b3, b4, b5, b6, b7]
          :: (bytes_to_i64s rest ++ bytes_to_i64s b)
    rw [bytes_to_i64s_append rest b h8]

theorem read_sa_chunks_ok (data : List Nat) (h : data.length % 8 = 0) :
    read_sa_chunks data = .ok (bytes_to_i64s data) := by
  have H : ∀ (n : Nat) (d : List Nat), d.length = n → d.length % 8 = 0 →
      read_sa_chunks d = .ok (bytes_to_i64s d) := by
    intro n
    induction n using Nat.strong_induction_on with
    | _ n ih =>
      intro d hn h8
      by_cases hd : d = []
      · subst hd
        rw [read_sa_chunks]
        simp [bytes_to_i64s]
      · rw [read_sa_chunks]
        simp only [hd, dite_false]
        have htake : (d.take ONE_GIB).length % 8 = 0 := by
          rw [List.length_take]
          have hg : ONE_GIB % 8 = 0 := by norm_num [ONE_GIB]
          omega
        have hdrop : (d.drop ONE_GIB).length % 8 = 0 := by
          rw [List.length_drop]
          have hg : ONE_GIB % 8 = 0 := by norm_num [ONE_GIB]
          omega
        have hlt : (d.drop ONE_GIB).length < n := by
          rw [List.length_drop, ← hn]
          exact Nat.sub_lt (List.length_pos.mpr hd) (by norm_num [ONE_GIB])
        rw [show deserialize_sa (d.take ONE_GIB) = .ok (bytes_to_i64s (d.take ONE_GIB)) by
          unfold deserialize_sa
          rw [if_neg (fun hc => hc htake)]]
        rw [ih _ hlt _ rfl hdrop]
        show Except.ok (bytes_to_i64s (d.take ONE_GIB) ++ bytes_to_i64s (d.drop ONE_GIB))
            = .ok (bytes_to_i64s d)
        rw [← bytes_to_i64s_append _ _ htake, List.take_append_drop]
  exact H data.length data rfl h

theorem read_sa_chunks_error (data : List Nat) (h : data.length % 8 ≠ 0) :
    read_sa_chunks data = .error "Serialized data is not a multiple of 8 bytes long!" := by
  have H : ∀ (n : Nat) (d : List Nat), d.length = n → d.length % 8 ≠ 0 →
      read_sa_chunks d = .error "Serialized data is not a multiple of 8 bytes long!" := by
    intro n
    induction n using Nat.strong_induction_on with
    | _ n ih =>
      intro d hn h8
      have hd : d ≠ [] := by
        intro hc
        subst hc
        simp at h8
      rw [read_sa_chunks]
      simp only [hd, dite_false]
      by_cases hle : d.length ≤ ONE_GIB
      · have htake : (d.take ONE_GIB).length % 8 ≠ 0 := by
          rw [List.length_take]
          omega
        rw [show deserialize_sa (d.take ONE_GIB)
            = .error "Serialized data is not a multiple of 8 bytes long!" by
          unfold deserialize_sa
          rw [if_pos htake]]
      · have htake : (d.take ONE_GIB).length % 8 = 0 := by
          rw [List.length_take]
          have hg : ONE_GIB % 8 = 0 := by norm_num [ONE_GIB]
          omega
        have hdrop : (d.drop ONE_GIB).length % 8 ≠ 0 := by
          rw [List.length_drop]
          have hg : ONE_GIB % 8 = 0 := by norm_num [ONE_GIB]
          omega
        have hlt : (d.drop ONE_GIB).length < n := by
          rw [List.length_drop, ← hn]
          exact Nat.sub_lt (List.length_pos.mpr hd) (by norm_num [ONE_GIB])
        rw [show deserialize_sa (d.take ONE_GIB) = .ok (bytes_to_i64s (d.take ONE_GIB)) by
          unfold deserialize_sa
          rw [if_neg (fun hc => hc htake)]]
        rw [ih _ hlt _ rfl hdrop]
  exact H data.length data rfl h

theorem write_sa_chunks_eq (xs : List Int) : write_sa_chunks xs = serialize xs := by
  have H : ∀ (n : Nat) (ys : List Int), ys.length = n → write_sa_chunks ys = serialize ys := by
    intro n
    induction n using Nat.strong_induction_on with
    | _ n ih =>
      intro ys hn
      by_cases hx : ys = []
      · subst hx
        rw [write_sa_chunks]
        simp [serialize]
      · rw [write_sa_chunks]
        simp only [hx, dite_false]
        have hlt : (ys.drop (ONE_GIB / 8)).length < n := by
          rw [List.length_drop, ← hn]
          exact Nat.sub_lt (List.length_pos.mpr hx) (by norm_num [ONE_GIB])
        rw [ih _ hlt _ rfl, ← serialize_append, List.take_append_drop]
  exact H xs.length xs rfl

/-! ### Claim C2 -/

/-- C2. Codec round-trip: for every vector `xs` of i64 values (each in the i64
range, the empty vector included) and every sample-rate byte `k`, reading back
the serialized byte form (`write_binary`, which lays the values out
little-endian, 8 bytes each, back-to-back after the sample-rate byte at
offset 0) yields `k` and `xs` again, and the file has exactly
`1 + 8 * xs.length` bytes. -/
theorem c2_codec_round_trip (k : Nat) (xs : List Int) (hk : k < 256)
    (hx : ∀ x ∈ xs, -(2 ^ 63) ≤ x ∧ x < 2 ^ 63) :
    read_sa_file (write_binary k xs) = .ok (k, xs)
      ∧ (write_binary k xs).length = 1 + 8 * xs.length := by
  constructor
  · show read_sa_file (k :: write_sa_chunks xs) = .ok (k, xs)
    rw [read_sa_file, write_sa_chunks_eq]
    rw [read_sa_chunks_ok _ (by rw [serialize_length]; omega)]
    rw [bytes_to_i64s_serialize xs hx]
  · show (k :: write_sa_chunks xs).length = 1 + 8 * xs.length
    rw [List.length_cons, write_sa_chunks_eq, serialize_length]
    omega

/-- Witness for C2 at a concrete input (the values of the repository's own
`test_serialize_deserialize` test, plus an explicit sample rate). -/
theorem c2_codec_round_trip_witness :
    read_sa_file (write_binary 3 [5, 2165487362, -12315135]) = .ok (3, [5, 2165487362, -12315135])
      ∧ (write_binary 3 [5, 2165487362, -12315135]).length = 1 + 8 * 3 := by
  exact c2_codec_round_trip 3 [5, 2165487362, -12315135] (by norm_num) (by decide)

/-! ### Claim C6 -/

/-- C6. The index reader fails loudly whenever the byte count remaining after
the sample-rate byte is not a multiple of 8, for every input file, including
files larger than the 1 GiB read chunk: `read_sa_file` returns the
(panic) error and never data. -/
theorem c6_reader_rejects_misaligned (k : Nat) (rest : List Nat)
    (h : rest.length % 8 ≠ 0) :
    read_sa_file (k :: rest) = .error "Serialized data is not a multiple of 8 bytes long!" := by
  rw [read_sa_file, read_sa_chunks_error rest h]

/-- Witness for C6 at a concrete input: a 4-byte file (3 bytes after the
sample-rate byte). -/
theorem c6_reader_rejects_misaligned_witness :
    read_sa_file [1, 0, 0, 0] = .error "Serialized data is not a multiple of 8 bytes long!" :=
  c6_reader_rejects_misaligned 1 [0, 0, 0] (by decide)

/-! ### Protein database ingestion (`tsv-utils/src/lib.rs`) -/

/-- `SEPARATION_CHARACTER`, the byte of the protein separator `-`. -/
def SEPARATION_CHARACTER : Nat := 45

/-- `END_CHARACTER`, the byte of the text terminator `$`. -/
def END_CHARACTER : Nat := 36

/-- Embedding of Rust `str::split('\t')` on a byte string: the list of
tab-separated fields; always non-empty, keeps empty fields. -/
def split_tab : List Nat → List (List Nat)
  | [] => [[]]
  | b :: rest =>
    if b = 9 then
      [] :: split_tab rest
    else
      match split_tab rest with
      | f :: fs => (b :: f) :: fs
      | [] => [[b]]

/-- ASCII-level embedding of Rust `to_uppercase` on one byte (faithful for
ASCII text, which the database interface guarantees). -/
def to_uppercase_byte (b : Nat) : Nat := if 97 ≤ b ∧ b ≤ 122 then b - 32 else b

/-- Embedding of `str::parse::<TaxonId>()` (`TaxonId = usize`): an optional
leading `+`, then one or more ASCII digits, erroring on overflow past
`usize::MAX`. -/
def parse_digits (bs : List Nat) : Option Nat :=
  if bs = [] then none
  else if bs.all (fun b => decide (48 ≤ b ∧ b ≤ 57)) then
    (if bs.foldl (fun acc b => acc * 10 + (b - 48)) 0 < 2 ^ 64 then
      some (bs.foldl (fun acc b => acc * 10 + (b - 48)) 0)
    else none)
  else none

/-- See `parse_digits`; strips one optional leading `+` like Rust's
unsigned `FromStr`. -/
def parse_taxon_id (bs : List Nat) : Option Nat :=
  match bs with
  | 43 :: rest => parse_digits rest
  | _ => parse_digits bs

/-- Embedding of the `Protein` struct: `uniprot_id`, `sequence: (usize, u32)`
(start offset in the text and byte length, the latter truncated to `u32` by
the `as u32` cast), and the taxon `id`. -/
structure Protein where
  uniprot_id : List Nat
  sequence : Nat × Nat
  id : Nat
deriving DecidableEq, Inhabited

/-- Embedding of the `Proteins` struct: the concatenated `input_string` text
and the protein table. -/
structure Proteins where
  input_string : List Nat
  proteins : List Protein
deriving DecidableEq, Inhabited

/-- Error kinds of `get_proteins_from_database_file`:
`DatabaseFormatError` when a row does not unpack into exactly three
tab-separated fields, and the propagated `ParseIntError` from
`parse::<TaxonId>()?`. -/
inductive DbError where
  | databaseFormat (parts : List (List Nat))
  | taxonIdParse
deriving DecidableEq

/-- The row loop of `get_proteins_from_database_file`, with the loop state
(`input_string`, `proteins`, `begin_index`) passed explicitly. Each row is
split on tabs, unpacked into exactly three fields (`DatabaseFormatError`
otherwise), its taxon id parsed (propagated error on failure); rows whose
taxon id the taxonomy does not know are skipped; accepted rows append a
separator (except before the first), the uppercased sequence, and a
`Protein` record. After the loop the terminator byte is appended. -/
def get_proteins_go (taxon_id_exists : Nat → Bool) :
    List (List Nat) → List Nat → List Protein → Nat → Except DbError Proteins
  | [], input_string, proteins, _ => .ok ⟨input_string ++ [END_CHARACTER], proteins⟩
  | line :: rest, input_string, proteins, begin_index =>
    let parts := split_tab line
    if parts.length = 3 then
      let taxon_str := parts.getD 1 []
      let seq := parts.getD 2 []
      match parse_taxon_id taxon_str with
      | none => .error .taxonIdParse
      | some t =>
        if taxon_id_exists t then
          get_proteins_go taxon_id_exists rest
            ((if begin_index ≠ 0 then input_string ++ [SEPARATION_CHARACTER] else input_string)
              ++ seq.map to_uppercase_byte)
            (proteins ++ [⟨parts.getD 0 [], (begin_index, seq.length % 2 ^ 32), t⟩])
            (begin_index + seq.length + 1)
        else
          get_proteins_go taxon_id_exists rest input_string proteins begin_index
    else
      .error (.databaseFormat parts)

/-- Embedding of `get_proteins_from_database_file`, parameterised by the
`taxon_id_exists` oracle of the taxonomy collaborator and by the list of
lines of the database file. -/
def get_proteins_from_database_file (taxon_id_exists : Nat → Bool)
    (lines : List (List Nat)) : Except DbError Proteins :=
  get_proteins_go taxon_id_exists lines [] [] 0

/-- The sequences of the rows that `get_proteins_go` accepts (three
tab-separated fields, parseable taxon id, known to the taxonomy), in file
order; used to state what the produced text and protein table contain. -/
def accepted_sequences (taxon_id_exists : Nat → Bool) : List (List Nat) → List (List Nat)
  | [] => []
  | line :: rest =>
    (if (split_tab line).length = 3 then
      match parse_taxon_id ((split_tab line).getD 1 []) with
      | some t => if taxon_id_exists t then [(split_tab line).getD 2 []] else []
      | none => []
    else []) ++ accepted_sequences taxon_id_exists rest

/-- The slice `T[start .. start + len]` of a byte text. -/
def text_slice (t : List Nat) (start len : Nat) : List Nat := (t.drop start).take len

theorem text_slice_append (t u : List Nat) (s l : Nat) (h : s + l ≤ t.length) :
    text_slice (t ++ u) s l = text_slice t s l := by
  unfold text_slice
  rw [List.drop_append_of_le_length (by omega)]
  rw [List.take_append_of_le_length (by rw [List.length_drop]; omega)]

theorem text_slice_last (t u : List Nat) :
    text_slice (t ++ u) t.length u.length = u := by
  unfold text_slice
  rw [List.drop_left, List.take_length]

theorem to_uppercase_byte_eq_36 (b : Nat) : to_uppercase_byte b = 36 ↔ b = 36 := by
  unfold to_uppercase_byte
  split <;> omega

theorem map_uppercase_no_terminator (s : List Nat) (h : ∀ b ∈ s, b ≠ 36) :
    36 ∉ s.map to_uppercase_byte := by
  intro hmem
  obtain ⟨b, hb, hub⟩ := List.mem_map.mp hmem
  exact h b hb ((to_uppercase_byte_eq_36 b).mp hub)

theorem get_proteins_go_ok_spec (ex : Nat → Bool) (lines : List (List Nat)) :
    ∀ (done : List (List Nat)) (text : List Nat) (ps : List Protein)
      (begin_index : Nat) (res : Proteins),
    (∀ s ∈ accepted_sequences ex lines, s.length < 2 ^ 32 ∧ ∀ b ∈ s, b ≠ 36) →
    ps.length = done.length →
    (∀ j, j < ps.length →
      text_slice text (ps.getD j default).sequence.1 (ps.getD j default).sequence.2
        = (done.getD j []).map to_uppercase_byte) →
    (∀ j, j < ps.length →
      (ps.getD j default).sequence.1 + (ps.getD j default).sequence.2 ≤ text.length) →
    (∀ j, j + 1 < ps.length →
      (ps.getD (j + 1) default).sequence.1
        = (ps.getD j default).sequence.1 + (ps.getD j default).sequence.2 + 1) →
    ((begin_index = 0 ∧ text = [] ∧ ps = [])
      ∨ (ps ≠ [] ∧ begin_index = text.length + 1
          ∧ (ps.getD (ps.length - 1) default).sequence.1
              + (ps.getD (ps.length - 1) default).sequence.2 = text.length)) →
    36 ∉ text →
    get_proteins_go ex lines text ps begin_index = .ok res →
    res.proteins.length = done.length + (accepted_sequences ex lines).length
      ∧ (∀ j, j < res.proteins.length →
          text_slice res.input_string (res.proteins.getD j default).sequence.1
              (res.proteins.getD j default).sequence.2
            = ((done ++ accepted_sequences ex lines).getD j []).map to_uppercase_byte)
      ∧ (∀ j, j + 1 < res.proteins.length →
          (res.proteins.getD (j + 1) default).sequence.1
            = (res.proteins.getD j default).sequence.1
                + (res.proteins.getD j default).sequence.2 + 1)
      ∧ res.input_string.count 36 = 1
      ∧ res.input_string.getLast? = some 36 := by
  induction lines with
  | nil =>
    intro done text ps begin_index res hseq hlen hslice hfit hconsec hstate hnd hgo
    simp only [get_proteins_go, Except.ok.injEq] at hgo
    subst hgo
    refine ⟨by simpa [accepted_sequences] using hlen, ?_, ?_, ?_, ?_⟩
    · intro j hj
      show text_slice (text ++ [END_CHARACTER]) _ _ = _
      rw [text_slice_append _ _ _ _ (hfit j hj)]
      simpa [accepted_sequences] using hslice j hj
    · intro j hj
      exact hconsec j hj
    · show (text ++ [END_CHARACTER]).count 36 = 1
      rw [List.count_append]
      rw [List.count_eq_zero.mpr hnd]
      rfl
    · exact List.getLast?_concat text
  | cons line rest ih =>
    intro done text ps begin_index res hseq hlen hslice hfit hconsec hstate hnd hgo
    simp only [get_proteins_go] at hgo
    by_cases h3 : (split_tab line).length = 3
    · rw [if_pos h3] at hgo
      cases hp : parse_taxon_id ((split_tab line).getD 1 []) with
      | none =>
        simp only [hp] at hgo
        exact absurd hgo (by simp)
      | some t =>
        simp only [hp] at hgo
        by_cases hex : ex t = true
        · rw [if_pos hex] at hgo
          have hacc : accepted_sequences ex (line :: rest)
              = (split_tab line).getD 2 [] :: accepted_sequences ex rest := by
            rw [accepted_sequences, if_pos h3, hp]
            show (if ex t = true then [(split_tab line).getD 2 []] else [])
                ++ accepted_sequences ex rest = _
            rw [if_pos hex]
            rfl
          have hsl := hseq ((split_tab line).getD 2 []) (by rw [hacc]; exact List.mem_cons_self _ _)
          have hmod : ((split_tab line).getD 2 []).length % 2 ^ 32
              = ((split_tab line).getD 2 []).length := Nat.mod_eq_of_lt hsl.1
          have hseq' : ∀ s ∈ accepted_sequences ex rest, s.length < 2 ^ 32 ∧ ∀ b ∈ s, b ≠ 36 :=
            fun s hs => hseq s (by rw [hacc]; exact List.mem_cons_of_mem _ hs)
          rcases hstate with ⟨hbi0, htext0, hps0⟩ | ⟨hpsne, hbi, hlast⟩
          · -- first accepted row: empty state
            subst hbi0 htext0 hps0
            have hdone : done = [] := List.length_eq_zero.mp hlen.symm
            subst hdone
            rw [if_neg (by omega)] at hgo
            simp only [List.nil_append, Nat.zero_add] at hgo
            have := ih [(split_tab line).getD 2 []]
              (List.map to_uppercase_byte ((split_tab line).getD 2 []))
              [⟨(split_tab line).getD 0 [], (0, ((split_tab line).getD 2 []).length % 2 ^ 32), t⟩]
              (((split_tab line).getD 2 []).length + 1) res hseq'
              (by simp)
              (by
                intro j hj
                simp only [List.length_cons, List.length_nil] at hj
                interval_cases j
                simp only [List.getD_cons_zero, hmod]
                unfold text_slice
                rw [List.drop_zero]
                exact List.take_of_length_le (le_of_eq (List.length_map _ _)))
              (by
                intro j hj
                simp only [List.length_cons, List.length_nil] at hj
                interval_cases j
                simp only [List.getD_cons_zero, hmod, List.length_map]
                omega)
              (by intro j hj; simp only [List.length_cons, List.length_nil] at hj; omega)
              (by
                right
                refine ⟨by simp, by simp, ?_⟩
                simp only [List.length_cons, List.length_nil, Nat.zero_add, Nat.sub_self,
                  List.getD_cons_zero, hmod, List.length_map])
              (map_uppercase_no_terminator _ hsl.2)
              hgo
            refine ⟨?_, ?_, this.2.2.1, this.2.2.2.1, this.2.2.2.2⟩
            · rw [hacc]
              have h1 := this.1
              simp only [List.length_nil, List.length_cons, Nat.zero_add] at h1 ⊢
              omega
            · intro j hj
              have h2 := this.2.1 j hj
              rw [hacc]
              simpa using h2
          · -- subsequent accepted row: non-empty state
            have hbine : begin_index ≠ 0 := by omega
            rw [if_pos hbine] at hgo
            have hlenA : ((text ++ [SEPARATION_CHARACTER])
                ++ List.map to_uppercase_byte ((split_tab line).getD 2 [])).length
                = text.length + 1 + ((split_tab line).getD 2 []).length := by
              simp only [List.length_append, List.length_cons, List.length_nil, List.length_map]
            have := ih (done ++ [(split_tab line).getD 2 []])
              ((text ++ [SEPARATION_CHARACTER])
                ++ List.map to_uppercase_byte ((split_tab line).getD 2 []))
              (ps ++ [⟨(split_tab line).getD 0 [],
                (begin_index, ((split_tab line).getD 2 []).length % 2 ^ 32), t⟩])
              (begin_index + ((split_tab line).getD 2 []).length + 1) res hseq'
              (by simp [hlen])
              (by
                intro j hj
                simp only [List.length_append, List.length_cons, List.length_nil] at hj
                rcases Nat.lt_or_ge j ps.length with hjlt | hjge
                · rw [List.getD_append _ _ _ _ hjlt, List.getD_append _ _ _ _ (hlen ▸ hjlt)]
                  rw [List.append_assoc]
                  rw [text_slice_append _ _ _ _ (hfit j hjlt)]
                  exact hslice j hjlt
                · have hj' : j = ps.length := by omega
                  subst hj'
                  rw [List.getD_append_right _ _ _ _ (le_refl _),
                    List.getD_append_right _ _ _ _ (le_of_eq hlen.symm)]
                  simp only [Nat.sub_self, hlen, List.getD_cons_zero]
                  rw [hbi, hmod]
                  have : text.length + 1 = (text ++ [SEPARATION_CHARACTER]).length := by simp
                  rw [this]
                  have hml : ((split_tab line).getD 2 []).length
                      = (List.map to_uppercase_byte ((split_tab line).getD 2 [])).length := by simp
                  rw [hml, text_slice_last])
              (by
                intro j hj
                simp only [List.length_append, List.length_cons, List.length_nil] at hj
                rcases Nat.lt_or_ge j ps.length with hjlt | hjge
                · rw [List.getD_append _ _ _ _ hjlt]
                  have := hfit j hjlt
                  rw [hlenA]
                  omega
                · have hj' : j = ps.length := by omega
                  subst hj'
                  rw [List.getD_append_right _ _ _ _ (le_refl _)]
                  simp only [Nat.sub_self, List.getD_cons_zero]
                  rw [hlenA, hbi, hmod])
              (by
                intro j hj
                simp only [List.length_append, List.length_cons, List.length_nil] at hj
                rcases Nat.lt_or_ge (j + 1) ps.length with hjlt | hjge
                · rw [List.getD_append _ _ _ _ hjlt,
                    List.getD_append _ _ _ _ (by omega)]
                  exact hconsec j hjlt
                · have hj' : j + 1 = ps.length := by omega
                  rw [List.getD_append_right _ _ _ _ (le_of_eq hj'.symm),
                    List.getD_append _ _ _ _ (by omega)]
                  simp only [hj', Nat.sub_self, List.getD_cons_zero]
                  rw [hbi]
                  have : j = ps.length - 1 := by omega
                  rw [this]
                  omega)
              (by
                right
                refine ⟨by simp, ?_, ?_⟩
                · rw [hlenA, hbi]
                · rw [List.length_append, List.length_cons, List.length_nil,
                    List.getD_append_right _ _ _ _ (by omega)]
                  simp only [Nat.add_sub_cancel, Nat.sub_self, List.getD_cons_zero]
                  rw [hlenA, hbi, hmod])
              (by
                intro hmem
                rcases List.mem_append.mp hmem with hmem' | hmem'
                · rcases List.mem_append.mp hmem' with h' | h'
                  · exact hnd h'
                  · simp [SEPARATION_CHARACTER] at h'
                · exact map_uppercase_no_terminator _ hsl.2 hmem')
              hgo
            refine ⟨?_, ?_, this.2.2.1, this.2.2.2.1, this.2.2.2.2⟩
            · rw [hacc]
              simp only [List.length_append, List.length_cons, List.length_nil] at this
              rw [this.1]
              simp
              omega
            · intro j hj
              have h2 := this.2.1 j (by
                simp only [List.length_append, List.length_cons, List.length_nil] at this ⊢
                omega)
              rw [hacc]
              rw [List.append_assoc] at h2
              simpa using h2
        · rw [if_neg hex] at hgo
          have hacc : accepted_sequences ex (line :: rest) = accepted_sequences ex rest := by
            rw [accepted_sequences, if_pos h3, hp]
            show (if ex t = true then [(split_tab line).getD 2 []] else [])
                ++ accepted_sequences ex rest = _
            rw [if_neg hex]
            rfl
          have hseq' : ∀ s ∈ accepted_sequences ex rest, s.length < 2 ^ 32 ∧ ∀ b ∈ s, b ≠ 36 :=
            fun s hs => hseq s (by rw [hacc]; exact hs)
          have := ih done text ps begin_index res hseq' hlen hslice hfit hconsec hstate hnd hgo
          rw [hacc]
          exact this
    · rw [if_neg h3] at hgo
      exact absurd hgo (by simp)

/-! ### Claim C7 -/

/-- C7. After ingesting any database file (under the database interface
contract: sequences are byte strings of length `< 2^32` not containing the
terminator byte), the produced text and protein table satisfy the layout
invariant: protein `j`'s slice `T[start .. start+length]` is its uppercased
sequence, consecutive proteins satisfy
`start_{j+1} = start_j + length_j + 1` (one separator byte between them), and
the text contains exactly one terminator `$` (byte 36), at its last
position. -/
theorem c7_text_layout_invariant (taxon_id_exists : Nat → Bool)
    (lines : List (List Nat)) (res : Proteins)
    (hok : get_proteins_from_database_file taxon_id_exists lines = .ok res)
    (hseq : ∀ s ∈ accepted_sequences taxon_id_exists lines,
      s.length < 2 ^ 32 ∧ ∀ b ∈ s, b ≠ 36) :
    res.proteins.length = (accepted_sequences taxon_id_exists lines).length
      ∧ (∀ j, j < res.proteins.length →
          text_slice res.input_string (res.proteins.getD j default).sequence.1
              (res.proteins.getD j default).sequence.2
            = ((accepted_sequences taxon_id_exists lines).getD j []).map to_uppercase_byte)
      ∧ (∀ j, j + 1 < res.proteins.length →
          (res.proteins.getD (j + 1) default).sequence.1
            = (res.proteins.getD j default).sequence.1
                + (res.proteins.getD j default).sequence.2 + 1)
      ∧ res.input_string.count 36 = 1
      ∧ res.input_string.getLast? = some 36 := by
  have h := get_proteins_go_ok_spec taxon_id_exists lines [] [] [] 0 res hseq rfl
    (by intro j hj; simp at hj) (by intro j hj; simp at hj) (by intro j hj; simp at hj)
    (Or.inl ⟨rfl, rfl, rfl⟩) (by simp) hok
  refine ⟨by simpa using h.1, ?_, h.2.2.1, h.2.2.2.1, h.2.2.2.2⟩
  intro j hj
  have h2 := h.2.1 j hj
  simpa using h2

/-- Concrete two-row database file used by the C7 and C8 witnesses:
`p1<TAB>10<TAB>AbCD` and `p2<TAB>9<TAB>EFGH`. -/
def db_lines : List (List Nat) :=
  [[112, 49, 9, 49, 48, 9, 65, 98, 67, 68], [112, 50, 9, 57, 9, 69, 70, 71, 72]]

/-- The `Proteins` value that ingesting `db_lines` produces: the text
`ABCD-EFGH$` and the two protein records. -/
def db_res : Proteins :=
  ⟨[65, 66, 67, 68, 45, 69, 70, 71, 72, 36],
   [⟨[112, 49], (0, 4), 10⟩, ⟨[112, 50], (5, 4), 9⟩]⟩

/-- Witness for C7 on the concrete file `db_lines`. -/
theorem c7_text_layout_invariant_witness :
    db_res.proteins.length = (accepted_sequences (fun _ => true) db_lines).length
      ∧ text_slice db_res.input_string (db_res.proteins.getD 1 default).sequence.1
          (db_res.proteins.getD 1 default).sequence.2
        = ((accepted_sequences (fun _ => true) db_lines).getD 1 []).map to_uppercase_byte
      ∧ (db_res.proteins.getD 1 default).sequence.1
        = (db_res.proteins.getD 0 default).sequence.1
            + (db_res.proteins.getD 0 default).sequence.2 + 1
      ∧ db_res.input_string.count 36 = 1
      ∧ db_res.input_string.getLast? = some 36 := by
  have h := c7_text_layout_invariant (fun _ => true) db_lines db_res rfl (by decide)
  exact ⟨h.1, h.2.1 1 (by decide), h.2.2.1 0 (by decide), h.2.2.2.1, h.2.2.2.2⟩

/-! ### Claim C8 -/

theorem get_proteins_go_bad_row (ex : Nat → Bool) (post : List (List Nat)) (bad : List Nat)
    (hbad : (split_tab bad).length ≠ 3) :
    ∀ (pre : List (List Nat)) (text : List Nat) (ps : List Protein) (begin_index : Nat),
    (∀ l ∈ pre, (split_tab l).length = 3
      ∧ ∃ t, parse_taxon_id ((split_tab l).getD 1 []) = some t) →
    get_proteins_go ex (pre ++ bad :: post) text ps begin_index
      = .error (.databaseFormat (split_tab bad)) := by
  intro pre
  induction pre with
  | nil =>
    intro text ps begin_index _
    show get_proteins_go ex (bad :: post) text ps begin_index = _
    simp only [get_proteins_go]
    rw [if_neg hbad]
  | cons l pre' ih =>
    intro text ps begin_index hpre
    obtain ⟨h3, t, hp⟩ := hpre l (List.mem_cons_self _ _)
    have hpre' : ∀ l' ∈ pre', (split_tab l').length = 3
        ∧ ∃ t, parse_taxon_id ((split_tab l').getD 1 []) = some t :=
      fun l' hl' => hpre l' (List.mem_cons_of_mem _ hl')
    show get_proteins_go ex (l :: (pre' ++ bad :: post)) text ps begin_index = _
    simp only [get_proteins_go]
    rw [if_pos h3]
    simp only [hp]
    by_cases hex : ex t = true
    · rw [if_pos hex]
      exact ih _ _ _ hpre'
    · rw [if_neg hex]
      exact ih _ _ _ hpre'

/-- C8. For every database file containing a row that does not consist of
exactly three tab-separated fields (in particular a row with extra columns
after the third), protein ingestion fails with the fatal
`DatabaseFormatError`, aborting the whole load; stated for files whose rows
before the offending one are well-formed (three fields with a parseable
taxon id), so that the loop reaches the offending row or an earlier equally
malformed one. -/
theorem c8_malformed_row_fatal (ex : Nat → Bool) (pre post : List (List Nat)) (bad : List Nat)
    (hpre : ∀ l ∈ pre, (split_tab l).length = 3
      ∧ ∃ t, parse_taxon_id ((split_tab l).getD 1 []) = some t)
    (hbad : (split_tab bad).length ≠ 3) :
    get_proteins_from_database_file ex (pre ++ bad :: post)
      = .error (.databaseFormat (split_tab bad)) :=
  get_proteins_go_bad_row ex post bad hbad pre [] [] 0 hpre

/-- Witness for C8: the second row has four tab-separated fields (an extra
column after the third), and the load aborts with `DatabaseFormatError`. -/
theorem c8_malformed_row_fatal_witness :
    get_proteins_from_database_file (fun _ => true)
        ([[112, 49, 9, 49, 48, 9, 65, 66]] ++ [65, 9, 49, 9, 66, 9, 67] :: [])
      = .error (.databaseFormat (split_tab [65, 9, 49, 9, 66, 9, 67])) :=
  c8_malformed_row_fatal (fun _ => true) [[112, 49, 9, 49, 48, 9, 65, 66]] []
    [65, 9, 49, 9, 66, 9, 67]
    (by
      intro l hl
      rw [List.mem_singleton] at hl
      subst hl
      exact ⟨rfl, 10, rfl⟩)
    (by decide)

/-! ### Search dispatch (`suffixarray/src/lib.rs`)

The `Searcher` type itself (SA binary search, densification, protein
resolution, LCA* lookup) lives in a module that is not part of the sources
under verification; `search_peptide` and `execute_search`, which are, only
call it through its methods. The structure below therefore keeps those
methods fully abstract — every theorem about `search_peptide` and
`execute_search` holds for an arbitrary `Searcher`. Byte strings are
`List Nat`; the `String`-valued fields stand for the `Debug` renderings the
dispatcher embeds in its output. -/

/-- The five search modes of `enum SearchMode`. -/
inductive SearchMode where
  | Match
  | MinMaxBound
  | AllOccurrences
  | TaxonId
  | Analyses
deriving DecidableEq

/-- Abstract interface of `Searcher` as used by `search_peptide`:
`sample_rate`, and the methods called per mode. `search_bounds`' second
component is the `Debug` rendering of the bounds; `search_protein` returns
the renderings of the matched proteins; `search_matching_suffixes` returns
the `(cutoff_hit, suffixes)` pair; `retrieve_proteins` maps suffixes to
protein records (rendered id, taxon id); `retrieve_lca` the LCA* result;
`get_uniprot_and_taxa_ids` the rendering of the annotations. -/
structure Searcher where
  sample_rate : Nat
  search_if_match : List Nat → Bool → Bool
  search_bounds : List Nat → Bool → Bool × String
  search_protein : List Nat → Bool → List String
  search_matching_suffixes : List Nat → Nat → Bool → Bool × List Int
  retrieve_proteins : List Int → List (String × Nat)
  retrieve_lca : List (String × Nat) → Option Nat
  get_uniprot_and_taxa_ids : List (String × Nat) → String

/-- The peptide preprocessing of `search_peptide` (lines 182-190 of
`lib.rs`): strip one trailing newline, uppercase, and, when
`equalize_i_and_l` is set, replace every `L` (76) by `I` (73). -/
def process_peptide (word : List Nat) (equalize_i_and_l : Bool) : List Nat :=
  let stripped := if word.getLast? = some 10 then word.dropLast else word
  let upper := stripped.map to_uppercase_byte
  if equalize_i_and_l then
    upper.map (fun c => if c = 76 then 73 else c)
  else
    upper

/-- Rendering of `format!("{}", b)` for a `bool`. -/
def format_bool (b : Bool) : String := if b then "true" else "false"

/-- Rendering of `println!("{:?}", results)` for a `Vec` whose elements'
renderings are given. -/
def debug_list (xs : List String) : String := "[" ++ String.intercalate ", " xs ++ "]"

/-- Embedding of `search_peptide`. The first component is the `String` the
function returns (the result the dispatcher emits on the query's output
line); the second collects the lines the function itself prints to stdout
with `println!` along the way (the too-short diagnostic, and the
`AllOccurrences` protein dump). -/
def search_peptide (s : Searcher) (word : List Nat) (search_mode : SearchMode)
    (cutoff : Nat) (equalize_i_and_l : Bool) : String × List String :=
  let peptide := process_peptide word equalize_i_and_l
  if peptide.length < s.sample_rate then
    ("", ["/ (word too short short for SA sample size)"])
  else
    match search_mode with
    | .Match => (format_bool (s.search_if_match peptide equalize_i_and_l), [])
    | .MinMaxBound =>
      let fb := s.search_bounds peptide equalize_i_and_l
      (format_bool fb.1 ++ ";" ++ fb.2, [])
    | .AllOccurrences =>
      let results := s.search_protein peptide equalize_i_and_l
      (toString peptide.length ++ ";" ++ toString results.length ++ ";", [debug_list results])
    | .TaxonId =>
      let cs := s.search_matching_suffixes peptide cutoff equalize_i_and_l
      let result : Option Nat :=
        if cs.1 then some 1 else s.retrieve_lca (s.retrieve_proteins cs.2)
      (match result with
       | some id => toString id
       | none => "/", [])
    | .Analyses =>
      let cs := s.search_matching_suffixes peptide cutoff equalize_i_and_l
      let proteins := s.retrieve_proteins cs.2
      let result : Option Nat := if cs.1 then some 1 else s.retrieve_lca proteins
      (match result with
       | some id => toString id ++ ";" ++ s.get_uniprot_and_taxa_ids proteins
       | none => "/", [])

/-- Rendering of the dispatcher's `println!("{};{}", all_peptides[index], res)`. -/
def format_output_line (word : List Nat) (res : String) : String :=
  String.mk (word.map Char.ofNat) ++ ";" ++ res

/-- Embedding of `execute_search`'s query pipeline: the parallel
`par_iter().map(..).collect::<Vec<_>>()` (an order-preserving map, per
rayon's indexed-parallel-iterator contract) followed by the
`enumerate`-and-print loop that pairs `all_peptides[index]` with the
`index`-th result. Returns the emitted output lines in order. -/
def execute_search (s : Searcher) (mode : SearchMode) (cutoff : Nat)
    (equalize_i_and_l : Bool) (all_peptides : List (List Nat)) : List String :=
  let results := all_peptides.map
    (fun peptide => (search_peptide s peptide mode cutoff equalize_i_and_l).1)
  (List.range results.length).map
    (fun index => format_output_line (all_peptides.getD index []) (results.getD index ""))

theorem to_uppercase_byte_idem (b : Nat) :
    to_uppercase_byte (to_uppercase_byte b) = to_uppercase_byte b := by
  unfold to_uppercase_byte
  by_cases h : 97 ≤ b ∧ b ≤ 122
  · rw [if_pos h, if_neg (by omega)]
  · rw [if_neg h, if_neg h]

theorem to_uppercase_byte_eq_10 (b : Nat) : to_uppercase_byte b = 10 ↔ b = 10 := by
  unfold to_uppercase_byte
  split <;> omega

theorem map_uppercase_idem (l : List Nat) :
    (l.map to_uppercase_byte).map to_uppercase_byte = l.map to_uppercase_byte := by
  rw [List.map_map]
  exact List.map_congr_left (fun a _ => to_uppercase_byte_idem a)

theorem process_peptide_uppercase (word : List Nat) (equalize_i_and_l : Bool) :
    process_peptide (word.map to_uppercase_byte) equalize_i_and_l
      = process_peptide word equalize_i_and_l := by
  unfold process_peptide
  have hstrip : (if (word.map to_uppercase_byte).getLast? = some 10 then
        (word.map to_uppercase_byte).dropLast else word.map to_uppercase_byte)
      = (if word.getLast? = some 10 then word.dropLast else word).map to_uppercase_byte := by
    by_cases h : word.getLast? = some 10
    · rw [if_pos h, if_pos (by rw [List.getLast?_map, h]; rfl)]
      exact (List.map_dropLast _ _).symm
    · have hm : ¬ ((word.map to_uppercase_byte).getLast? = some 10) := by
        rw [List.getLast?_map]
        intro hc
        apply h
        cases hl : word.getLast? with
        | none => rw [hl] at hc; exact Option.noConfusion hc
        | some b =>
          rw [hl] at hc
          have hb : to_uppercase_byte b = 10 := by simpa using hc
          exact congrArg _ ((to_uppercase_byte_eq_10 b).mp hb)
      rw [if_neg h, if_neg hm]
  rw [hstrip]
  simp only [map_uppercase_idem]

theorem list_getD_map_range {β : Type} (dflt : β) (n i : Nat) (g : Nat → β) (hi : i < n) :
    ((List.range n).map g).getD i dflt = g i := by
  rw [List.getD_eq_getElem?_getD, List.getElem?_map, List.getElem?_range hi]
  rfl

theorem list_getD_map {α β : Type} (da : α) (db : β) (f : α → β) (l : List α)
    (i : Nat) (hi : i < l.length) :
    (l.map f).getD i db = f (l.getD i da) := by
  rw [List.getD_eq_getElem?_getD, List.getElem?_map, List.getD_eq_getElem?_getD,
    List.getElem?_eq_getElem hi]
  rfl

/-- A concrete searcher with sample rate 1 whose matching-suffix search
always reports the cutoff as hit, and whose LCA* stage would answer 99 —
used to witness that the emitted id is 1 regardless. -/
def searcher_cut : Searcher :=
  ⟨1, fun _ _ => true, fun _ _ => (true, "(0, 3)"), fun _ _ => [],
   fun _ _ _ => (true, [0, 5, 9]), fun _ => [], fun _ => some 99, fun _ => ""⟩

/-- A concrete searcher with sample rate 2; its fields are never consulted
for a too-short peptide. -/
def searcher_k2 : Searcher :=
  ⟨2, fun _ _ => false, fun _ _ => (false, ""), fun _ _ => [],
   fun _ _ _ => (false, []), fun _ => [], fun _ => none, fun _ => ""⟩

/-- A concrete searcher with sample rate 1 whose match test observes the
exact peptide bytes it is given (it matches precisely the byte string `L`). -/
def searcher_echo : Searcher :=
  ⟨1, fun p _ => decide (p = [76]), fun _ _ => (false, ""), fun _ _ => [],
   fun _ _ _ => (false, []), fun _ => [], fun _ => none, fun _ => ""⟩

/-! ### Claim C1 -/

/-- C1. In TaxonId mode, whenever the matching-suffix search reports that the
cutoff was hit, the emitted taxon id is exactly `1` (the taxonomy root), for
every peptide long enough to be searched, every searcher, cutoff and
equivalence flag, and regardless of which suffixes were collected or what
the LCA* stage would have answered. -/
theorem c1_cutoff_emits_root (s : Searcher) (word : List Nat) (cutoff : Nat)
    (equalize_i_and_l : Bool)
    (hlen : s.sample_rate ≤ (process_peptide word equalize_i_and_l).length)
    (hcut : (s.search_matching_suffixes (process_peptide word equalize_i_and_l)
        cutoff equalize_i_and_l).1 = true) :
    (search_peptide s word .TaxonId cutoff equalize_i_and_l).1 = "1" := by
  have hnl : ¬ ((process_peptide word equalize_i_and_l).length < s.sample_rate) :=
    Nat.not_lt.mpr hlen
  simp only [search_peptide, hnl, if_false, hcut, if_true]
  rfl

/-- Witness for C1: the searcher reports `cutoff_hit = true` with suffixes
collected and an LCA* stage that would answer 99; the emitted id is `1`. -/
theorem c1_cutoff_emits_root_witness :
    (search_peptide searcher_cut [65, 66] .TaxonId 5 false).1 = "1" :=
  c1_cutoff_emits_root searcher_cut [65, 66] 5 false (by decide) (by decide)

/-! ### Claim C3 -/

/-- C3. Output ordering matches input ordering: the dispatcher emits exactly
one line per input peptide, and the `i`-th emitted line is the `i`-th input
peptide paired with the result of searching that same peptide (the parallel
map is order-preserving, so inputs and outputs correspond by line index). -/
theorem c3_output_order_matches_input (s : Searcher) (mode : SearchMode)
    (cutoff : Nat) (equalize_i_and_l : Bool) (all_peptides : List (List Nat)) :
    (execute_search s mode cutoff equalize_i_and_l all_peptides).length
        = all_peptides.length
      ∧ ∀ i, i < all_peptides.length →
        (execute_search s mode cutoff equalize_i_and_l all_peptides).getD i ""
          = format_output_line (all_peptides.getD i [])
              (search_peptide s (all_peptides.getD i []) mode cutoff equalize_i_and_l).1 := by
  constructor
  · simp [execute_search]
  · intro i hi
    unfold execute_search
    simp only [List.length_map]
    rw [list_getD_map_range _ _ _ _ hi]
    rw [list_getD_map [] "" _ _ _ hi]

/-- Witness for C3 on a concrete two-peptide query file. -/
theorem c3_output_order_matches_input_witness :
    (execute_search searcher_cut .TaxonId 10000 false [[65, 66], [67]]).length
        = ([[65, 66], [67]] : List (List Nat)).length
      ∧ (execute_search searcher_cut .TaxonId 10000 false [[65, 66], [67]]).getD 1 ""
        = format_output_line (([[65, 66], [67]] : List (List Nat)).getD 1 [])
            (search_peptide searcher_cut (([[65, 66], [67]] : List (List Nat)).getD 1 [])
              .TaxonId 10000 false).1 :=
  ⟨(c3_output_order_matches_input searcher_cut .TaxonId 10000 false [[65, 66], [67]]).1,
   (c3_output_order_matches_input searcher_cut .TaxonId 10000 false [[65, 66], [67]]).2
     1 (by decide)⟩

/-! ### Claim C4 (corrected) -/

/-- C4 as frozen is false on the code: for a too-short peptide no diagnostic
is surfaced in that query's output line. At sample rate 2 and the one-letter
query `A`, `search_peptide` returns the empty string — which is not `/` —
so the query's ordered output line is exactly `A;`, while the diagnostic is
printed as a separate, out-of-band stdout line (the second component). -/
theorem c4_short_peptide_counterexample :
    (search_peptide searcher_k2 [65] .TaxonId 10000 false).1 = ""
      ∧ execute_search searcher_k2 .TaxonId 10000 false [[65]] = ["A;"]
      ∧ (search_peptide searcher_k2 [65] .TaxonId 10000 false).2
          = ["/ (word too short short for SA sample size)"]
      ∧ ("" : String) ≠ "/" :=
  ⟨rfl, rfl, rfl, by decide⟩

/-- C4 (amended). For every peptide strictly shorter than the sample rate:
the query is rejected with an empty result in its own output line, the
diagnostic `/ (word too short short for SA sample size)` is printed as a
separate out-of-band line, no search is performed (the outcome is identical
for any two searchers that agree on the sample rate), and the worker pool
keeps processing the remaining queries (one output line per input always). -/
theorem c4_short_peptide_amended (s : Searcher) (word : List Nat) (mode : SearchMode)
    (cutoff : Nat) (equalize_i_and_l : Bool)
    (hshort : (process_peptide word equalize_i_and_l).length < s.sample_rate) :
    (search_peptide s word mode cutoff equalize_i_and_l).1 = ""
      ∧ (search_peptide s word mode cutoff equalize_i_and_l).2
          = ["/ (word too short short for SA sample size)"]
      ∧ (∀ s' : Searcher, s'.sample_rate = s.sample_rate →
          search_peptide s' word mode cutoff equalize_i_and_l
            = search_peptide s word mode cutoff equalize_i_and_l)
      ∧ (∀ peps : List (List Nat),
          (execute_search s mode cutoff equalize_i_and_l peps).length = peps.length) := by
  refine ⟨?_, ?_, ?_, ?_⟩
  · simp [search_peptide, hshort]
  · simp [search_peptide, hshort]
  · intro s' hsr
    simp only [search_peptide]
    rw [hsr, if_pos hshort, if_pos hshort]
  · intro peps
    simp [execute_search]

/-- Witness for the amended C4 at a concrete too-short input. -/
theorem c4_short_peptide_amended_witness :
    (search_peptide searcher_k2 [66] .Match 10000 false).1 = ""
      ∧ (search_peptide searcher_k2 [66] .Match 10000 false).2
          = ["/ (word too short short for SA sample size)"] :=
  ⟨(c4_short_peptide_amended searcher_k2 [66] .Match 10000 false (by decide)).1,
   (c4_short_peptide_amended searcher_k2 [66] .Match 10000 false (by decide)).2.1⟩

/-! ### Claim C5 (corrected) -/

/-- C5 as frozen is false on the code: with the equivalence flag unset the
peptide bytes are not left verbatim — the query is still uppercased. The
lowercase query `l` (byte 108) is searched as `L` (byte 76): the processed
peptide differs from the input, and a searcher that matches exactly the byte
string `L` answers `true` for the query `l`. -/
theorem c5_verbatim_counterexample :
    process_peptide [108] false ≠ [108]
      ∧ (search_peptide searcher_echo [108] .Match 10000 false).1 = "true" :=
  ⟨by decide, rfl⟩

/-- C5 (amended). In every search mode the searcher receives the processed
peptide, and the processing is: strip one trailing newline, uppercase, then
— exactly when the equivalence flag is set — replace every `L` by `I`; with
the flag unset the bytes are otherwise unchanged (verbatim up to
newline-stripping and uppercasing). -/
theorem c5_canonicalisation_amended :
    (∀ word : List Nat, process_peptide word true
        = (process_peptide word false).map (fun c => if c = 76 then 73 else c))
      ∧ (∀ word : List Nat, word.getLast? ≠ some 10 →
          (∀ b ∈ word, ¬ (97 ≤ b ∧ b ≤ 122)) → process_peptide word false = word)
      ∧ (∀ (s : Searcher) (mode : SearchMode) (cutoff : Nat) (equalize_i_and_l : Bool)
          (w1 w2 : List Nat),
          process_peptide w1 equalize_i_and_l = process_peptide w2 equalize_i_and_l →
          search_peptide s w1 mode cutoff equalize_i_and_l
            = search_peptide s w2 mode cutoff equalize_i_and_l) := by
  refine ⟨fun word => rfl, ?_, ?_⟩
  · intro word hnl hup
    unfold process_peptide
    rw [if_neg hnl]
    simp only [Bool.false_eq_true, if_false]
    exact List.map_congr_left (fun a ha => by
      unfold to_uppercase_byte
      rw [if_neg (hup a ha)]
      rfl) |>.trans (List.map_id word)
  · intro s mode cutoff equalize_i_and_l w1 w2 h
    simp only [search_peptide, h]

/-- Witness for the amended C5 at concrete inputs: `la` with the flag set
processes to `IA`; the uppercase newline-free string `A-` is untouched with
the flag unset; and the searches for `l` and `L` coincide. -/
theorem c5_canonicalisation_amended_witness :
    process_peptide [108, 97] true
        = (process_peptide [108, 97] false).map (fun c => if c = 76 then 73 else c)
      ∧ process_peptide [65, 45] false = [65, 45]
      ∧ search_peptide searcher_echo [108] .Match 10000 false
          = search_peptide searcher_echo [76] .Match 10000 false :=
  ⟨c5_canonicalisation_amended.1 [108, 97],
   c5_canonicalisation_amended.2.1 [65, 45] (by decide) (by decide),
   c5_canonicalisation_amended.2.2 searcher_echo .Match 10000 false [108] [76] (by decide)⟩

/-! ### Claim C10 -/

/-- C10. Queries are case-insensitive at the public interface: every query
word is uppercased before any search, so for every (ASCII) word, searcher,
mode, cutoff and equivalence flag, `search_peptide` returns the same result
— emitted line and printed lines alike — for a word and for its uppercased
form. -/
theorem c10_uppercase_invariance (s : Searcher) (mode : SearchMode) (cutoff : Nat)
    (equalize_i_and_l : Bool) (word : List Nat) (hascii : ∀ b ∈ word, b < 128) :
    search_peptide s (word.map to_uppercase_byte) mode cutoff equalize_i_and_l
      = search_peptide s word mode cutoff equalize_i_and_l := by
  simp only [search_peptide, process_peptide_uppercase]

/-- Witness for C10: the query `ab` followed by a newline and its uppercased
form produce identical output. -/
theorem c10_uppercase_invariance_witness :
    search_peptide searcher_echo ([97, 108, 10].map to_uppercase_byte) .Match 10000 false
      = search_peptide searcher_echo [97, 108, 10] .Match 10000 false :=
  c10_uppercase_invariance searcher_echo .Match 10000 false [97, 108, 10] (by decide)

/-! ### LCA* aggregation (`src/lca_calculator.rs`) -/

/-- Embedding of `snap_taxon_id`: look the id up in the snapping table
(`snapping[id].unwrap_or_else(|| panic!(..))`). Panics are modelled as
`Except.error`: indexing past the slice is Rust's index panic, an absent
(`None`) entry is the `Could not snap taxon id` panic. -/
def snap_taxon_id (snapping : List (Option Nat)) (id : Nat) : Except String Nat :=
  match snapping[id]? with
  | none => .error ("index out of bounds: the len is " ++ toString snapping.length
      ++ " but the index is " ++ toString id)
  | some none => .error ("Could not snap taxon id " ++ toString id)
  | some (some x) => .ok x

/-- Embedding of `agg::count` over the `(id, 1.0)` pairs fed to it: the
multiplicity function of the id multiset (each occurrence contributes
weight 1). -/
def count_occurrences (ids : List Nat) : Nat → Nat := fun t => ids.count t

/-- Embedding of `get_lca`, parameterised by the external `umgap` aggregator
(`calculator.aggregate`; its failure is the `Could not aggregate` panic):
ids equal to `0` are discarded, occurrences are counted, the aggregate is
computed and then snapped. -/
def get_lca (aggregate : (Nat → Nat) → Option Nat) (snapping : List (Option Nat))
    (ids : List Nat) : Except String Nat :=
  let count := count_occurrences (ids.filter (fun id => id ≠ 0))
  match aggregate count with
  | none => .error "Could not aggregate following taxon ids"
  | some a => snap_taxon_id snapping a

/-! ### Claim C9 -/

/-- C9. During LCA* aggregation, if the aggregated taxon id is absent from
the snapping table, `get_lca` fails fatally (the panic, modelled as
`Except.error`) rather than returning a result; when the id is within the
table and its entry is `None` the error is exactly
`Could not snap taxon id <id>` (an id beyond the table's length dies with
the index panic instead). -/
theorem c9_unknown_taxon_fatal (aggregate : (Nat → Nat) → Option Nat)
    (snapping : List (Option Nat)) (ids : List Nat) (a : Nat)
    (hagg : aggregate (count_occurrences (ids.filter (fun id => id ≠ 0))) = some a)
    (habsent : snapping.getD a none = none) :
    ∃ e, get_lca aggregate snapping ids = .error e
      ∧ (a < snapping.length → e = "Could not snap taxon id " ++ toString a) := by
  simp only [get_lca, hagg]
  unfold snap_taxon_id
  cases hsn : snapping[a]? with
  | none =>
    exact ⟨_, rfl, fun hlt => by
      rw [List.getElem?_eq_getElem hlt] at hsn
      exact Option.noConfusion hsn⟩
  | some o =>
    cases o with
    | none => exact ⟨_, rfl, fun _ => rfl⟩
    | some x =>
      rw [List.getD_eq_getElem?_getD, hsn] at habsent
      exact Option.noConfusion habsent

/-- Witness for C9: a taxonomy whose snapping table has no entry for the
aggregated id 7. -/
theorem c9_unknown_taxon_fatal_witness :
    ∃ e, get_lca (fun _ => some 7) (List.replicate 8 none) [7, 7, 0] = .error e
      ∧ (7 < (List.replicate 8 (none : Option Nat)).length →
          e = "Could not snap taxon id " ++ toString 7) :=
  c9_unknown_taxon_fatal (fun _ => some 7) (List.replicate 8 none) [7, 7, 0] 7 rfl (by decide)
